import Mathlib

/-!
Verification of the ocmgr profile-management core against its specification.

The development shallowly embeds two subsystems of the repository:

* `Resolver`: the profile "extends"-chain resolver
  (`internal/resolver/resolver.go`).  The Go `Loader` callback
  `func(name string) (string, error)` is embedded as
  `String → Except String String`; the unbounded `for` loop of `walkChain`
  is given explicit fuel, with `none` marking the (divergent) exhaustion
  case that cannot occur on the inputs of interest.

* `Copier`: the profile materializer (`internal/copier/copier.go`) and the
  layering loop of `internal/cli/init.go`.  The filesystem under the
  target directory is embedded as an association list from relative-path
  component lists to file contents; the profile directory is embedded as a
  tree of entries walked in order, mirroring `filepath.WalkDir` including
  its `SkipDir` pruning; the interactive conflict callback is embedded as
  a per-file list of answers it would produce.
-/

set_option maxRecDepth 4000

deriving instance DecidableEq for Except

namespace Resolver

/-- Embeds `strings.TrimSpace` as used by `walkChain` in resolver.go: drops
whitespace from both ends of the string (defined over the character list
so that it evaluates by kernel reduction). -/
def trimSpace (s : String) : String :=
  ⟨((s.data.dropWhile Char.isWhitespace).reverse.dropWhile Char.isWhitespace).reverse⟩

/-- Embeds `formatCycle` from resolver.go: joins the visited chain plus the
identifier that closed the loop with " → " separators. -/
def formatCycle (chain : List String) (loopBack : String) : String :=
  String.intercalate " → " (chain ++ [loopBack])

/-- The body of `walkChain`'s loop from resolver.go.  `chain` plays the
role of both the `visiting` set and the `chain` slice (in the Go code the
two always hold the same identifiers, in insertion order).  `fuel` bounds
the number of iterations; `none` means the fuel ran out, which corresponds
to the Go loop still running. -/
def walkChainAux (load : String → Except String String) :
    Nat → String → List String → Option (Except String (List String))
  | 0, _, _ => none
  | fuel + 1, current, chain =>
    if current = "" then some (Except.ok chain.reverse)
    else if current ∈ chain then
      some (Except.error ("circular dependency detected: " ++ formatCycle chain current))
    else
      match load current with
      | Except.error e =>
          some (Except.error ("resolving profile \"" ++ current ++ "\": " ++ e))
      | Except.ok par => walkChainAux load fuel (trimSpace par) (chain ++ [current])

/-- Embeds `walkChain` from resolver.go: builds the chain for one profile, root
ancestor first. -/
def walkChain (load : String → Except String String) (fuel : Nat) (name : String) :
    Option (Except String (List String)) :=
  walkChainAux load fuel name []

/-- The de-duplicating append loop of `Resolve` from resolver.go: each
element of `chain` is appended to `acc` only when not already present
(the Go `seen` map holds exactly the members of the result slice). -/
def dedupAppend : List String → List String → List String
  | acc, [] => acc
  | acc, n :: rest => if n ∈ acc then dedupAppend acc rest else dedupAppend (acc ++ [n]) rest

/-- The main loop of `Resolve` from resolver.go, folded over the requested
names with the accumulated result. -/
def resolveAux (load : String → Except String String) (fuel : Nat) :
    List String → List String → Option (Except String (List String))
  | [], acc => some (Except.ok acc)
  | n :: rest, acc =>
    match walkChain load fuel n with
    | none => none
    | some (Except.error e) => some (Except.error e)
    | some (Except.ok chain) => resolveAux load fuel rest (dedupAppend acc chain)

/-- Embeds `Resolve` from resolver.go. -/
def Resolve (names : List String) (load : String → Except String String) (fuel : Nat) :
    Option (Except String (List String)) :=
  resolveAux load fuel names []

/-- The loader of the specification's example: `go` extends `base`,
`base` (and anything else) extends nothing. -/
def loadGoBase : String → Except String String :=
  fun n => if n = "go" then Except.ok "base" else Except.ok ""

/-- One step of the parent chain as the resolver follows it: `load a`
succeeds and its trimmed result is `b`. -/
def stepRel (load : String → Except String String) (a b : String) : Prop :=
  ∃ e, load a = Except.ok e ∧ trimSpace e = b

theorem dedupAppend_nodup (l : List String) :
    ∀ acc : List String, acc.Nodup → (dedupAppend acc l).Nodup := by
  induction l with
  | nil => intro acc h; simpa [dedupAppend] using h
  | cons n rest ih =>
    intro acc h
    by_cases hmem : n ∈ acc
    · simpa [dedupAppend, hmem] using ih acc h
    · have hacc : (acc ++ [n]).Nodup := by
        simp [List.nodup_append, h, hmem]
      simpa [dedupAppend, hmem] using ih (acc ++ [n]) hacc

theorem resolveAux_nodup (load : String → Except String String) (fuel : Nat) :
    ∀ (names acc out : List String), acc.Nodup →
      resolveAux load fuel names acc = some (Except.ok out) → out.Nodup := by
  intro names
  induction names with
  | nil =>
    intro acc out hacc h
    simp only [resolveAux, Option.some.injEq, Except.ok.injEq] at h
    exact h ▸ hacc
  | cons n rest ih =>
    intro acc out hacc h
    simp only [resolveAux] at h
    cases hw : walkChain load fuel n with
    | none => rw [hw] at h; exact absurd h (by simp)
    | some r =>
      cases r with
      | error e => rw [hw] at h; exact absurd h (by simp)
      | ok chain =>
        rw [hw] at h
        exact ih (dedupAppend acc chain) out (dedupAppend_nodup chain acc hacc) h

/-- C2: the worked example of chain resolution with de-duplication, plus
the general fact that an identifier already present in the result is never
appended again (the result list has no duplicates). -/
theorem resolve_go_base_dedup :
    (Resolve ["go"] loadGoBase 8 = some (Except.ok ["base", "go"]) ∧
      Resolve ["base", "go"] loadGoBase 8 = some (Except.ok ["base", "go"])) ∧
    ∀ (load : String → Except String String) (fuel : Nat) (names acc out : List String),
      acc.Nodup → resolveAux load fuel names acc = some (Except.ok out) → out.Nodup := by
  refine ⟨⟨by decide, by decide⟩, ?_⟩
  intro load fuel names acc out hacc h
  exact resolveAux_nodup load fuel names acc out hacc h

/-- Witness for C2: the general de-duplication part applied to the
concrete example. -/
theorem resolve_go_base_dedup_witness : (["base", "go"] : List String).Nodup :=
  resolve_go_base_dedup.2 loadGoBase 8 ["go"] [] ["base", "go"] (by decide) (by decide)

theorem walkChainAux_cycle (load : String → Except String String) :
    ∀ (rest : List String) (current : String) (chainAcc : List String)
      (loopBack : String) (fuel : Nat),
      List.Chain (stepRel load) current rest →
      stepRel load (rest.getLastD current) loopBack →
      loopBack ∈ chainAcc ++ current :: rest →
      (∀ x ∈ chainAcc ++ current :: rest, x ≠ "") →
      (chainAcc ++ current :: rest).Nodup →
      rest.length + 2 ≤ fuel →
      walkChainAux load fuel current chainAcc =
        some (Except.error
          ("circular dependency detected: " ++ formatCycle (chainAcc ++ current :: rest) loopBack)) := by
  intro rest
  induction rest with
  | nil =>
    intro current chainAcc loopBack fuel hch hlast hloop hne hnd hfuel
    obtain ⟨f, rfl⟩ : ∃ f, fuel = f + 1 := ⟨fuel - 1, by omega⟩
    obtain ⟨f', rfl⟩ : ∃ f', f = f' + 1 := ⟨f - 1, by omega⟩
    have hcur : current ≠ "" := hne current (by simp)
    have hcurnot : current ∉ chainAcc := by
      intro hmem
      rcases List.nodup_append.mp hnd with ⟨-, -, hdisj⟩
      exact hdisj hmem (by simp)
    simp only [List.getLastD_nil] at hlast
    obtain ⟨e, he, ht⟩ := hlast
    have hlb : loopBack ≠ "" := hne loopBack hloop
    have hlbmem : loopBack ∈ chainAcc ++ [current] := by simpa using hloop
    simp only [walkChainAux, if_neg hcur, if_neg hcurnot, he, ht, if_neg hlb,
      if_pos hlbmem]
  | cons b rest' ih =>
    intro current chainAcc loopBack fuel hch hlast hloop hne hnd hfuel
    obtain ⟨f, rfl⟩ : ∃ f, fuel = f + 1 := ⟨fuel - 1, by omega⟩
    have hcur : current ≠ "" := hne current (by simp)
    have hcurnot : current ∉ chainAcc := by
      intro hmem
      rcases List.nodup_append.mp hnd with ⟨-, -, hdisj⟩
      exact hdisj hmem (by simp)
    rcases hch with _ | ⟨hstep, hch'⟩
    obtain ⟨e, he, ht⟩ := hstep
    have hassoc : (chainAcc ++ [current]) ++ b :: rest' = chainAcc ++ current :: b :: rest' := by
      simp
    have := ih b (chainAcc ++ [current]) loopBack f hch'
      (by simpa only [List.getLastD_cons] using hlast)
      (by rw [hassoc]; exact hloop)
      (by rw [hassoc]; exact hne)
      (by rw [hassoc]; exact hnd)
      (by simp at hfuel ⊢; omega)
    rw [hassoc] at this
    simp only [walkChainAux, if_neg hcur, if_neg hcurnot, he, ht]
    exact this

/-- C3: when the parent references form a cycle reachable from the
requested name — the chain `name :: rest` of distinct, non-empty
identifiers steps through `load`, and the last one's parent `loopBack`
is already in the chain — `Resolve` returns the circular-dependency
error naming the full cycle path, and no chain is returned.  `Resolve`
performs no filesystem access (its only collaborator is `load`), so the
error precedes any materialization. -/
theorem resolve_cycle_error (load : String → Except String String)
    (name loopBack : String) (rest : List String) (fuel : Nat)
    (hch : List.Chain (stepRel load) name rest)
    (hlast : stepRel load (rest.getLastD name) loopBack)
    (hloop : loopBack ∈ name :: rest)
    (hne : ∀ x ∈ name :: rest, x ≠ "")
    (hnd : (name :: rest).Nodup)
    (hfuel : rest.length + 2 ≤ fuel) :
    Resolve [name] load fuel =
      some (Except.error
        ("circular dependency detected: " ++ formatCycle (name :: rest) loopBack)) := by
  have hw := walkChainAux_cycle load rest name [] loopBack fuel hch hlast
    (by simpa using hloop) (by simpa using hne) (by simpa using hnd) hfuel
  simp only [List.nil_append] at hw
  simp only [Resolve, resolveAux, walkChain, hw]

/-- The loader of the cycle example: `a` extends `b`, `b` extends `a`. -/
def loadAB : String → Except String String :=
  fun n => if n = "a" then Except.ok "b" else if n = "b" then Except.ok "a" else Except.ok ""

/-- Witness for C3: the `a → b → a` cycle example. -/
theorem resolve_cycle_error_witness :
    Resolve ["a"] loadAB 3 =
      some (Except.error "circular dependency detected: a → b → a") := by
  have h := resolve_cycle_error loadAB "a" "a" ["b"] 3
    (List.Chain.cons ⟨"b", by decide, by decide⟩ List.Chain.nil)
    ⟨"a", by decide, by decide⟩ (by decide) (by decide) (by decide) (by decide)
  rw [h]
  decide

end Resolver

namespace Copier

/-- Go `error` values as the copier distinguishes them: the sentinel
`errCancelled` and everything else, carrying its message.  `errors.Is`
against the sentinel is equality with `Err.cancelled` (the copier never
wraps the sentinel). -/
inductive Err where
  | cancelled
  | msg (s : String)
deriving DecidableEq, Repr

/-- Human-readable text of an error, as `fmt.Sprintf("%v", err)` renders
it; the sentinel's message is the one given to `errors.New` in copier.go. -/
def errText : Err → String
  | Err.cancelled => "copy operation cancelled by user"
  | Err.msg s => s

/-- Embeds `ConflictChoice` from copier.go. -/
inductive ConflictChoice where
  | overwrite
  | skip
  | compare
  | cancel
deriving DecidableEq, Repr

/-- One invocation of the `OnConflict` callback returns a choice and an
error, exactly the Go signature `(ConflictChoice, error)`. -/
abbrev Answer := ConflictChoice × Option Err

/-- Embeds `Strategy` from copier.go: a string type; unrecognized values fall
into the `default` arm of the conflict switch. -/
abbrev Strategy := String

/-- Embeds `StrategyPrompt` from copier.go. -/
def strategyPrompt : Strategy := "prompt"

/-- Embeds `StrategyOverwrite` from copier.go. -/
def strategyOverwrite : Strategy := "overwrite"

/-- Embeds `StrategyMerge` from copier.go. -/
def strategyMerge : Strategy := "merge"

/-- Embeds `StrategySkip` from copier.go. -/
def strategySkip : Strategy := "skip"

/-- Embeds `Options` from copier.go.  The interactive `OnConflict` callback is
embedded as the sequence of answers it would return for a given
destination (the Go callback reads stdin; per conflicting file it yields
a stream of answers, one per re-prompt of the Compare loop). -/
structure Options where
  strategy : Strategy
  dryRun : Bool
  force : Bool
  onConflict : Option (List String → List Answer)
  includeDirs : List String
  excludeDirs : List String

/-- Embeds `Result` from copier.go.  Copied and skipped destinations are kept as
relative-path component lists (the Go code stores the joined string
`rel`); error entries are the formatted strings. -/
structure Result where
  copied : List (List String)
  skipped : List (List String)
  errors : List String
deriving DecidableEq, Repr

/-- The target `.opencode/` file tree: an association list from
relative-path components to file contents. -/
abbrev FS := List (List String × String)

/-- Existence-and-content lookup in the target tree, as `os.Stat` plus a read observe it. -/
def lookupFS : FS → List String → Option String
  | [], _ => none
  | (q, c) :: rest, p => if q = p then some c else lookupFS rest p

/-- Writing a file: `CopyFile` opens the destination with `O_TRUNC`, so an
existing entry is replaced and a missing one is created. -/
def setFS : FS → List String → String → FS
  | [], p, c => [(p, c)]
  | (q, c0) :: rest, p, c => if q = p then (q, c) :: rest else (q, c0) :: setFS rest p c

/-- Embeds `profileDirs` from copier.go: the recognized top-level content
directories. -/
def profileDirs : List String := ["agents", "commands", "skills", "plugins"]

/-- The filesystem conditions outside the model's control: whether copying
to a given destination fails (unreadable source, unwritable destination,
disk full, …), and with which message. -/
structure Env where
  copyFails : List String → Option String

/-- The joined relative path, as `filepath.Rel` produces it. -/
def relStr (rel : List String) : String :=
  String.intercalate "/" rel

/-- The absolute path of an entry, as `filepath.WalkDir` reports it. -/
def pathStr (pdir : String) (rel : List String) : String :=
  pdir ++ "/" ++ relStr rel

/-- The `ChoiceCompare` loop of `resolveConflict` from copier.go, over the
answers the callback produces: a callback error is returned as-is, a
Cancel answer returns the `errCancelled` sentinel, Compare re-invokes,
anything else is terminal.  `none` means the callback never produced a
terminal answer, i.e. the Go loop would keep prompting. -/
def resolveLoop : List Answer → Option (ConflictChoice × Option Err)
  | [] => none
  | (choice, some e) :: _ => some (choice, some e)
  | (choice, none) :: rest =>
    if choice = ConflictChoice.cancel then some (choice, some Err.cancelled)
    else if choice = ConflictChoice.compare then resolveLoop rest
    else some (choice, none)

/-- Embeds `resolveConflict` from copier.go: a nil callback skips the file,
otherwise the Compare loop runs over the callback's answers. -/
def resolveConflict (cb : Option (List Answer)) : Option (ConflictChoice × Option Err) :=
  match cb with
  | none => some (ConflictChoice.skip, none)
  | some answers => resolveLoop answers

/-- The fields of `Options` the `WalkDir` closure in `CopyProfile`
actually reads after the `Force` normalization (it consults `Strategy`,
`DryRun`, `OnConflict` and the include/exclude sets, never `Force`). -/
structure WalkCfg where
  strategy : Strategy
  dryRun : Bool
  onConflict : Option (List String → List Answer)
  includeDirs : List String
  excludeDirs : List String

/-- What the `WalkDir` closure tells the walk driver: continue, prune this
directory (`filepath.SkipDir`), or abort the walk (`errCancelled`). -/
inductive Ctl where
  | cont
  | skipDir
  | cancel
deriving DecidableEq, Repr

/-- The copy-or-record block of `CopyProfile` (shared verbatim by the
new-file, overwrite and prompt-overwrite branches): under dry run only
record; otherwise attempt the copy, recording an error entry on failure
and the destination in `copied` on success. -/
def copyStep (dryRun : Bool) (env : Env) (rel : List String) (content : String)
    (st : Result × FS) : Result × FS :=
  if dryRun then ({ st.1 with copied := st.1.copied ++ [rel] }, st.2)
  else
    match env.copyFails rel with
    | some e => ({ st.1 with errors := st.1.errors ++ [relStr rel ++ ": " ++ e] }, st.2)
    | none => ({ st.1 with copied := st.1.copied ++ [rel] }, setFS st.2 rel content)

/-- The body of the `WalkDir` closure in `CopyProfile` for an entry at
relative path `rel` (non-root, reported without a walk error):
top-level-directory classification, include/exclude filtering, the
existence check, and the conflict switch.  `none` marks the one
non-terminating path, a prompt callback that never answers terminally. -/
def processEntry (cfg : WalkCfg) (env : Env) (rel : List String) (isDir : Bool)
    (content : String) (st : Result × FS) : Option ((Result × FS) × Ctl) :=
  if rel.headI ∉ profileDirs then
    some (st, if isDir then Ctl.skipDir else Ctl.cont)
  else if cfg.includeDirs ≠ [] ∧ rel.headI ∉ cfg.includeDirs then
    some (st, if isDir then Ctl.skipDir else Ctl.cont)
  else if cfg.excludeDirs ≠ [] ∧ rel.headI ∈ cfg.excludeDirs then
    some (st, if isDir then Ctl.skipDir else Ctl.cont)
  else if isDir then
    some (st, Ctl.cont)
  else if (lookupFS st.2 rel).isNone then
    some (copyStep cfg.dryRun env rel content st, Ctl.cont)
  else if cfg.strategy = strategyOverwrite then
    some (copyStep cfg.dryRun env rel content st, Ctl.cont)
  else if cfg.strategy = strategyMerge ∨ cfg.strategy = strategySkip then
    some (({ st.1 with skipped := st.1.skipped ++ [rel] }, st.2), Ctl.cont)
  else if cfg.strategy = strategyPrompt then
    match resolveConflict (cfg.onConflict.map (fun f => f rel)) with
    | none => none
    | some (_, some e) =>
      if e = Err.cancelled then some (st, Ctl.cancel)
      else
        some (({ st.1 with errors := st.1.errors ++ [relStr rel ++ ": " ++ errText e] }, st.2),
          Ctl.cont)
    | some (choice, none) =>
      match choice with
      | ConflictChoice.overwrite => some (copyStep cfg.dryRun env rel content st, Ctl.cont)
      | ConflictChoice.skip =>
        some (({ st.1 with skipped := st.1.skipped ++ [rel] }, st.2), Ctl.cont)
      | ConflictChoice.cancel => some (st, Ctl.cancel)
      | ConflictChoice.compare => some (st, Ctl.cont)
  else
    some (({ st.1 with skipped := st.1.skipped ++ [rel] }, st.2), Ctl.cont)

/-- One entry of the profile tree as `filepath.WalkDir` visits it:
a file with its contents, or a directory with its children in visit
order and, when the directory cannot be read, the `ReadDir` error
`WalkDir` reports on the second invocation of the closure. -/
inductive Entry where
  | file (name content : String)
  | dir (name : String) (readErr : Option String) (children : List Entry)
deriving Repr

mutual

/-- Embeds `filepath.WalkDir` visiting one entry under prefix `pre`: the closure
runs on the entry; `SkipDir` on a directory prunes its children; a
directory whose listing fails has the closure re-invoked with the walk
error (which records the entry and continues, skipping the unreadable
children).  The Bool is true when the walk was aborted by `errCancelled`. -/
def walkEntry (pdir : String) (cfg : WalkCfg) (env : Env) (pre : List String)
    (e : Entry) (st : Result × FS) : Option ((Result × FS) × Bool) :=
  match e with
  | Entry.file name content =>
    match processEntry cfg env (pre ++ [name]) false content st with
    | none => none
    | some (st', ctl) => some (st', ctl = Ctl.cancel)
  | Entry.dir name readErr children =>
    match processEntry cfg env (pre ++ [name]) true "" st with
    | none => none
    | some (st', ctl) =>
      if ctl = Ctl.cancel then some (st', true)
      else if ctl = Ctl.skipDir then some (st', false)
      else
        match readErr with
        | some werr =>
          some ((⟨st'.1.copied, st'.1.skipped,
            st'.1.errors ++ [pathStr pdir (pre ++ [name]) ++ ": " ++ werr]⟩, st'.2), false)
        | none => walkList pdir cfg env (pre ++ [name]) children st'

/-- Embeds `filepath.WalkDir` visiting a list of sibling entries in order,
stopping as soon as one aborts with `errCancelled`. -/
def walkList (pdir : String) (cfg : WalkCfg) (env : Env) (pre : List String)
    (es : List Entry) (st : Result × FS) : Option ((Result × FS) × Bool) :=
  match es with
  | [] => some (st, false)
  | e :: rest =>
    match walkEntry pdir cfg env pre e st with
    | none => none
    | some (st', cancelled) =>
      if cancelled then some (st', true)
      else walkList pdir cfg env pre rest st'

end

/-- The full outcome of `CopyProfile`: the result, the target tree after
the call, and the returned error. -/
structure CopyOut where
  result : Result
  fs : FS
  err : Option Err
deriving DecidableEq, Repr

/-- The `Force` normalization at the top of `CopyProfile`
(`if opts.Force { opts.Strategy = StrategyOverwrite }`), yielding the
fields the walk closure reads. -/
def cfgOf (opts : Options) : WalkCfg :=
  ⟨if opts.force then strategyOverwrite else opts.strategy,
    opts.dryRun, opts.onConflict, opts.includeDirs, opts.excludeDirs⟩

/-- Embeds `CopyProfile` from copier.go: normalizes the `Force` shorthand onto
the strategy, walks the profile tree from the root's children (the root
itself is the `rel == "."` early return), and returns the accumulated
result with the walk's error, which is `errCancelled` exactly when the
walk was aborted. -/
def CopyProfile (pdir : String) (tree : List Entry) (targetFS : FS) (opts : Options)
    (env : Env) : Option CopyOut :=
  match walkList pdir (cfgOf opts) env [] tree (⟨[], [], []⟩, targetFS) with
  | none => none
  | some ((res, fs'), cancelled) =>
    some ⟨res, fs', if cancelled then some Err.cancelled else none⟩

/-- The layering loop of `runInit` from internal/cli/init.go: each
profile (path and tree) is materialized in order against the same target;
a non-nil error from `CopyProfile` returns immediately, so no remaining
profile is touched. -/
def applyProfiles (profiles : List (String × List Entry)) (fs : FS) (opts : Options)
    (env : Env) : Option (List Result × FS × Option Err) :=
  match profiles with
  | [] => some ([], fs, none)
  | (path, tree) :: rest =>
    match CopyProfile path tree fs opts env with
    | none => none
    | some out =>
      match out.err with
      | some e => some ([out.result], out.fs, some e)
      | none =>
        match applyProfiles rest out.fs opts env with
        | none => none
        | some (results, fs', err') => some (out.result :: results, fs', err')

/-- C10: setting `Force` behaves identically to strategy `overwrite` with
`Force` cleared, whatever the `Strategy` field held, for the full
outcome (result, target tree, error). -/
theorem copyProfile_force_eq_overwrite (pdir : String) (tree : List Entry) (fs : FS)
    (opts : Options) (env : Env) :
    CopyProfile pdir tree fs { opts with force := true } env =
      CopyProfile pdir tree fs { opts with strategy := strategyOverwrite, force := false } env :=
  rfl

theorem processEntry_new_file_aux (cfg : WalkCfg) (env : Env) (rel : List String)
    (content : String) (st : Result × FS)
    (htop : rel.headI ∈ profileDirs)
    (hinc : cfg.includeDirs = [] ∨ rel.headI ∈ cfg.includeDirs)
    (hexc : cfg.excludeDirs = [] ∨ rel.headI ∉ cfg.excludeDirs)
    (hnew : lookupFS st.2 rel = none)
    (hok : env.copyFails rel = none) :
    processEntry cfg env rel false content st =
      some ((⟨st.1.copied ++ [rel], st.1.skipped, st.1.errors⟩,
        if cfg.dryRun then st.2 else setFS st.2 rel content), Ctl.cont) := by
  have c1 : ¬(rel.headI ∉ profileDirs) := not_not_intro htop
  have c2 : ¬(cfg.includeDirs ≠ [] ∧ rel.headI ∉ cfg.includeDirs) :=
    fun h => h.2 (hinc.resolve_left h.1)
  have c3 : ¬(cfg.excludeDirs ≠ [] ∧ rel.headI ∈ cfg.excludeDirs) :=
    fun h => (hexc.resolve_left h.1) h.2
  simp only [processEntry, copyStep, c1, c2, c3, if_false, hnew, hok, Option.isNone_none,
    if_true, Bool.false_eq_true, ite_false, ite_true]
  cases cfg.dryRun <;> simp [hok]

/-- C5: a qualifying file whose destination does not exist is always
copied — recorded in `copied`, and written unless `dryRun` — and the
outcome is the same for every strategy and every conflict callback, which
are never consulted on this path. -/
theorem processEntry_new_file_copies (cfg : WalkCfg) (env : Env) (rel : List String)
    (content : String) (st : Result × FS)
    (htop : rel.headI ∈ profileDirs)
    (hinc : cfg.includeDirs = [] ∨ rel.headI ∈ cfg.includeDirs)
    (hexc : cfg.excludeDirs = [] ∨ rel.headI ∉ cfg.excludeDirs)
    (hnew : lookupFS st.2 rel = none)
    (hok : env.copyFails rel = none) :
    processEntry cfg env rel false content st =
      some ((⟨st.1.copied ++ [rel], st.1.skipped, st.1.errors⟩,
        if cfg.dryRun then st.2 else setFS st.2 rel content), Ctl.cont) ∧
    ∀ (s : Strategy) (cb : Option (List String → List Answer)),
      processEntry { cfg with strategy := s, onConflict := cb } env rel false content st =
        processEntry cfg env rel false content st := by
  refine ⟨processEntry_new_file_aux cfg env rel content st htop hinc hexc hnew hok, ?_⟩
  intro s cb
  rw [processEntry_new_file_aux cfg env rel content st htop hinc hexc hnew hok,
    processEntry_new_file_aux { cfg with strategy := s, onConflict := cb } env rel content st
      htop hinc hexc hnew hok]

/-- Witness for C5: a fresh file under `agents/` is copied under the
`prompt` strategy with no callback. -/
theorem processEntry_new_file_copies_witness :
    processEntry ⟨"prompt", false, none, [], []⟩ ⟨fun _ => none⟩ ["agents", "a.md"] false "A"
        (⟨[], [], []⟩, []) =
      some ((⟨[["agents", "a.md"]], [], []⟩, [(["agents", "a.md"], "A")]), Ctl.cont) := by
  have h := (processEntry_new_file_copies ⟨"prompt", false, none, [], []⟩ ⟨fun _ => none⟩
    ["agents", "a.md"] "A" (⟨[], [], []⟩, []) (by decide) (Or.inl rfl) (Or.inl rfl) rfl rfl).1
  simpa [setFS] using h

/-- C9: under any strategy value outside the four recognized constants, a
qualifying file whose destination exists is recorded in `skipped`, the
target tree is untouched, and the walk continues. -/
theorem processEntry_unknown_strategy_skips (cfg : WalkCfg) (env : Env) (rel : List String)
    (content : String) (st : Result × FS)
    (htop : rel.headI ∈ profileDirs)
    (hinc : cfg.includeDirs = [] ∨ rel.headI ∈ cfg.includeDirs)
    (hexc : cfg.excludeDirs = [] ∨ rel.headI ∉ cfg.excludeDirs)
    (hs : cfg.strategy ∉ [strategyPrompt, strategyOverwrite, strategyMerge, strategySkip])
    (hex : (lookupFS st.2 rel).isSome) :
    processEntry cfg env rel false content st =
      some ((⟨st.1.copied, st.1.skipped ++ [rel], st.1.errors⟩, st.2), Ctl.cont) := by
  have c1 : ¬(rel.headI ∉ profileDirs) := not_not_intro htop
  have c2 : ¬(cfg.includeDirs ≠ [] ∧ rel.headI ∉ cfg.includeDirs) :=
    fun h => h.2 (hinc.resolve_left h.1)
  have c3 : ¬(cfg.excludeDirs ≠ [] ∧ rel.headI ∈ cfg.excludeDirs) :=
    fun h => (hexc.resolve_left h.1) h.2
  simp only [List.mem_cons, List.not_mem_nil, or_false, not_or] at hs
  obtain ⟨hsp, hso, hsm, hss⟩ := hs
  have h4 : (lookupFS st.2 rel).isNone = false := by
    cases hlk : lookupFS st.2 rel with
    | none => rw [hlk] at hex; simp at hex
    | some c => rfl
  simp only [processEntry, c1, c2, c3, if_false, h4, Bool.false_eq_true, ite_false,
    hso, hsm, hss, hsp, or_self, ite_true]

/-- Witness for C9: an unrecognized strategy `"bogus"` skips an existing
destination. -/
theorem processEntry_unknown_strategy_skips_witness :
    processEntry ⟨"bogus", false, none, [], []⟩ ⟨fun _ => none⟩ ["agents", "a.md"] false "A"
        (⟨[], [], []⟩, [(["agents", "a.md"], "old")]) =
      some ((⟨[], [["agents", "a.md"]], []⟩, [(["agents", "a.md"], "old")]), Ctl.cont) :=
  processEntry_unknown_strategy_skips ⟨"bogus", false, none, [], []⟩ ⟨fun _ => none⟩
    ["agents", "a.md"] "A" (⟨[], [], []⟩, [(["agents", "a.md"], "old")])
    (by decide) (Or.inl rfl) (Or.inl rfl) (by decide) (by decide)

/-- C7: under the `prompt` strategy, a missing callback resolves to Skip;
with a callback, seen as the sequence of choices it answers, the decision
is the first non-Compare choice of that sequence, with Cancel carrying
the `errCancelled` sentinel. -/
theorem resolveConflict_first_terminal :
    resolveConflict none = some (ConflictChoice.skip, none) ∧
    ∀ (choices : List ConflictChoice) (c : ConflictChoice),
      choices.find? (fun a => decide (a ≠ ConflictChoice.compare)) = some c →
      resolveConflict (some (choices.map (fun a => (a, none)))) =
        some (c, if c = ConflictChoice.cancel then some Err.cancelled else none) := by
  refine ⟨rfl, ?_⟩
  intro choices
  induction choices with
  | nil => intro c h; simp [List.find?] at h
  | cons a rest ih =>
    intro c h
    by_cases ha : a = ConflictChoice.compare
    · subst ha
      have h' : rest.find? (fun x => decide (x ≠ ConflictChoice.compare)) = some c := by
        simpa [List.find?] using h
      have := ih c h'
      simp only [resolveConflict, List.map_cons] at this ⊢
      simpa [resolveLoop] using this
    · have hfind : (a :: rest).find? (fun x => decide (x ≠ ConflictChoice.compare)) = some a := by
        simp [List.find?, ha]
      rw [hfind] at h
      injection h with h
      subst h
      cases a <;> simp_all [resolveConflict, resolveLoop]

theorem processEntry_dry_fs (cfg : WalkCfg) (env : Env) (rel : List String) (isDir : Bool)
    (content : String) (st st' : Result × FS) (ctl : Ctl)
    (hdry : cfg.dryRun = true)
    (h : processEntry cfg env rel isDir content st = some (st', ctl)) :
    st'.2 = st.2 := by
  simp only [processEntry, copyStep, hdry, ite_true] at h
  repeat' split at h
  all_goals simp_all
  all_goals (obtain ⟨h1, h2⟩ := h; subst h1; rfl)

theorem walk_dry_fs (pdir : String) (cfg : WalkCfg) (env : Env) (hdry : cfg.dryRun = true) :
    (∀ (pre : List String) (e : Entry) (st st' : Result × FS) (c : Bool),
      walkEntry pdir cfg env pre e st = some (st', c) → st'.2 = st.2) ∧
    (∀ (pre : List String) (es : List Entry) (st st' : Result × FS) (c : Bool),
      walkList pdir cfg env pre es st = some (st', c) → st'.2 = st.2) := by
  have main := walkEntry.mutual_induct pdir cfg env
    (fun pre e st => ∀ st' c, walkEntry pdir cfg env pre e st = some (st', c) → st'.2 = st.2)
    (fun pre es st => ∀ st' c, walkList pdir cfg env pre es st = some (st', c) → st'.2 = st.2)
    ?_ ?_ ?_ ?_ ?_ ?_ ?_ ?_ ?_ ?_ ?_
  · exact ⟨fun pre e st st' c => main.1 pre e st st' c,
      fun pre es st st' c => main.2 pre es st st' c⟩
  · intro pre st a a1 hpe st' c h
    simp only [walkEntry, hpe] at h
    exact Option.noConfusion h
  · intro pre st a a1 st0 ctl hpe st' c h
    simp only [walkEntry, hpe, Option.some.injEq, Prod.mk.injEq] at h
    rw [← h.1]
    exact processEntry_dry_fs cfg env (pre ++ [a]) false a1 st st0 ctl hdry hpe
  · intro pre st a a1 a2 hpe st' c h
    simp only [walkEntry, hpe] at h
    exact Option.noConfusion h
  · intro pre st a a1 a2 st0 hpe st' c h
    simp only [walkEntry, hpe] at h
    rw [if_pos trivial] at h
    simp only [Option.some.injEq, Prod.mk.injEq] at h
    rw [← h.1]
    exact processEntry_dry_fs cfg env (pre ++ [a]) true "" st st0 Ctl.cancel hdry hpe
  · intro pre st a a1 a2 st0 hpe hne st' c h
    simp only [walkEntry, hpe] at h
    rw [if_pos trivial, if_neg hne] at h
    simp only [Option.some.injEq, Prod.mk.injEq] at h
    rw [← h.1]
    exact processEntry_dry_fs cfg env (pre ++ [a]) true "" st st0 Ctl.skipDir hdry hpe
  · intro pre st a a1 st0 ctl hpe hnc hns e st' c h
    simp only [walkEntry, hpe] at h
    rw [if_neg hnc, if_neg hns] at h
    simp only [Option.some.injEq, Prod.mk.injEq] at h
    have hfs := processEntry_dry_fs cfg env (pre ++ [a]) true "" st st0 ctl hdry hpe
    rw [← h.1]
    exact hfs
  · intro pre st a a1 st0 ctl hpe hnc hns ih st' c h
    simp only [walkEntry, hpe] at h
    rw [if_neg hnc, if_neg hns] at h
    have hfs := processEntry_dry_fs cfg env (pre ++ [a]) true "" st st0 ctl hdry hpe
    rw [ih st' c h]
    exact hfs
  · intro pre st st' c h
    simp only [walkList, Option.some.injEq, Prod.mk.injEq] at h
    rw [← h.1]
  · intro pre st e rest hwe ih st' c h
    simp only [walkList, hwe] at h
    exact Option.noConfusion h
  · intro pre st e rest st0 hwe ih st' c h
    simp only [walkList, hwe] at h
    rw [if_pos trivial] at h
    simp only [Option.some.injEq, Prod.mk.injEq] at h
    rw [← h.1]
    exact ih st0 true hwe
  · intro pre st e rest st0 cancelled hwe hnc ihe ihl st' c h
    have hc : cancelled = false := by
      cases cancelled
      · rfl
      · exact absurd rfl hnc
    subst hc
    simp only [walkList, hwe] at h
    rw [if_neg (by simp)] at h
    rw [ihl st' c h]
    exact ihe st0 false hwe

/-- C1: with `dryRun` set, `CopyProfile` leaves the target tree exactly
as it was — zero filesystem mutation under `targetRoot`, whatever the
strategy, filters, callback and walk produced in the reported result. -/
theorem copyProfile_dryRun_no_mutation (pdir : String) (tree : List Entry) (fs : FS)
    (opts : Options) (env : Env) (out : CopyOut)
    (hdry : opts.dryRun = true)
    (h : CopyProfile pdir tree fs opts env = some out) :
    out.fs = fs := by
  unfold CopyProfile at h
  rcases hw : walkList pdir (cfgOf opts) env [] tree (⟨[], [], []⟩, fs) with _ | ⟨⟨res, fs'⟩, cancelled⟩
  · rw [hw] at h; cases h
  · rw [hw] at h
    have hfs := (walk_dry_fs pdir (cfgOf opts) env hdry).2 [] tree (⟨[], [], []⟩, fs)
      (res, fs') cancelled hw
    simp only [Option.some.injEq] at h
    rw [← h]
    exact hfs

/-- The options of the C1 witness scenario: a dry run under the `prompt`
strategy whose callback answers Compare then Overwrite. -/
def dryPromptOpts : Options :=
  ⟨"prompt", true, false,
    some (fun _ => [(ConflictChoice.compare, none), (ConflictChoice.overwrite, none)]), [], []⟩

/-- Witness for C1: a dry run over a profile with one conflicting and one
new file reports both as copied yet leaves the target tree unchanged. -/
theorem copyProfile_dryRun_no_mutation_witness :
    CopyProfile "p" [Entry.dir "agents" none [Entry.file "a.md" "A", Entry.file "b.md" "B"]]
        [(["agents", "a.md"], "old")] dryPromptOpts ⟨fun _ => none⟩ =
      some ⟨⟨[["agents", "a.md"], ["agents", "b.md"]], [], []⟩, [(["agents", "a.md"], "old")], none⟩ ∧
    (⟨⟨[["agents", "a.md"], ["agents", "b.md"]], [], []⟩,
        [(["agents", "a.md"], "old")], none⟩ : CopyOut).fs = [(["agents", "a.md"], "old")] :=
  ⟨by decide,
    copyProfile_dryRun_no_mutation "p"
      [Entry.dir "agents" none [Entry.file "a.md" "A", Entry.file "b.md" "B"]]
      [(["agents", "a.md"], "old")] dryPromptOpts ⟨fun _ => none⟩ _ rfl (by decide)⟩

theorem walkList_cancel_append (pdir : String) (cfg : WalkCfg) (env : Env)
    (pre : List String) (l1 : List Entry) :
    ∀ (l2 : List Entry) (st st' : Result × FS),
      walkList pdir cfg env pre l1 st = some (st', true) →
      walkList pdir cfg env pre (l1 ++ l2) st = some (st', true) := by
  induction l1 with
  | nil =>
    intro l2 st st' h
    simp [walkList] at h
  | cons e es ih =>
    intro l2 st st' h
    simp only [walkList] at h
    cases hwe : walkEntry pdir cfg env pre e st with
    | none => rw [hwe] at h; exact absurd h (by simp)
    | some p =>
      obtain ⟨st0, cancelled⟩ := p
      rw [hwe] at h
      cases cancelled with
      | true =>
        have h' : st0 = st' := by simpa using h
        subst h'
        simp [List.cons_append, walkList, hwe]
      | false =>
        have h' : walkList pdir cfg env pre es st0 = some (st', true) := by simpa using h
        simp only [List.cons_append, walkList, hwe, Bool.false_eq_true, reduceIte]
        exact ih l2 st0 st' h'

/-- C4: a Cancel decision aborts immediately: a walk prefix that ended
cancelled determines the whole walk's outcome no matter what entries
follow; `CopyProfile` then returns the result accumulated so far with the
`errCancelled` sentinel; and the layering loop returns on that error
without touching any remaining profile. -/
theorem cancel_aborts_walk_and_chain :
    (∀ (pdir : String) (cfg : WalkCfg) (env : Env) (pre : List String)
        (l1 l2 : List Entry) (st st' : Result × FS),
      walkList pdir cfg env pre l1 st = some (st', true) →
      walkList pdir cfg env pre (l1 ++ l2) st = some (st', true)) ∧
    (∀ (pdir : String) (l1 l2 : List Entry) (fs : FS) (opts : Options) (env : Env)
        (st' : Result × FS),
      walkList pdir (cfgOf opts) env [] l1 (⟨[], [], []⟩, fs) = some (st', true) →
      CopyProfile pdir (l1 ++ l2) fs opts env = some ⟨st'.1, st'.2, some Err.cancelled⟩) ∧
    (∀ (path : String) (tree : List Entry) (rest : List (String × List Entry)) (fs : FS)
        (opts : Options) (env : Env) (out : CopyOut) (e : Err),
      CopyProfile path tree fs opts env = some out → out.err = some e →
      applyProfiles ((path, tree) :: rest) fs opts env = some ([out.result], out.fs, some e)) := by
  refine ⟨fun pdir cfg env pre l1 => walkList_cancel_append pdir cfg env pre l1, ?_, ?_⟩
  · intro pdir l1 l2 fs opts env st' h
    have h2 := walkList_cancel_append pdir (cfgOf opts) env [] l1 l2 (⟨[], [], []⟩, fs) st' h
    obtain ⟨res, fs'⟩ := st'
    unfold CopyProfile
    rw [h2]
    simp
  · intro path tree rest fs opts env out e h herr
    simp only [applyProfiles, h, herr]

/-- The options of the cancellation witness: `prompt` strategy whose
callback immediately answers Cancel. -/
def cancelOpts : Options :=
  ⟨"prompt", false, false, some (fun _ => [(ConflictChoice.cancel, none)]), [], []⟩

/-- The target tree of the cancellation witness: `agents/a.md` already
exists. -/
def cancelFS : FS := [(["agents", "a.md"], "old")]

/-- First profile part of the cancellation witness. -/
def cancelTreeA : List Entry := [Entry.dir "agents" none [Entry.file "a.md" "A"]]

/-- Second profile part (never reached) of the cancellation witness. -/
def cancelTreeB : List Entry := [Entry.dir "skills" none [Entry.file "s.md" "S"]]

/-- Witness for C4: cancelling on the first conflicting file freezes the
result at the accumulated state, for the walk, for `CopyProfile`, and for
the layering loop. -/
theorem cancel_aborts_walk_and_chain_witness :
    walkList "p" (cfgOf cancelOpts) ⟨fun _ => none⟩ [] (cancelTreeA ++ cancelTreeB)
        (⟨[], [], []⟩, cancelFS) = some ((⟨[], [], []⟩, cancelFS), true) ∧
    CopyProfile "p" (cancelTreeA ++ cancelTreeB) cancelFS cancelOpts ⟨fun _ => none⟩ =
      some ⟨⟨[], [], []⟩, cancelFS, some Err.cancelled⟩ ∧
    applyProfiles [("p", cancelTreeA ++ cancelTreeB), ("q", cancelTreeB)] cancelFS cancelOpts
        ⟨fun _ => none⟩ = some ([⟨[], [], []⟩], cancelFS, some Err.cancelled) :=
  ⟨cancel_aborts_walk_and_chain.1 "p" (cfgOf cancelOpts) ⟨fun _ => none⟩ [] cancelTreeA
      cancelTreeB (⟨[], [], []⟩, cancelFS) ((⟨[], [], []⟩, cancelFS)) (by decide),
    cancel_aborts_walk_and_chain.2.1 "p" cancelTreeA cancelTreeB cancelFS cancelOpts
      ⟨fun _ => none⟩ ((⟨[], [], []⟩, cancelFS)) (by decide),
    cancel_aborts_walk_and_chain.2.2 "p" (cancelTreeA ++ cancelTreeB) [("q", cancelTreeB)]
      cancelFS cancelOpts ⟨fun _ => none⟩ ⟨⟨[], [], []⟩, cancelFS, some Err.cancelled⟩
      Err.cancelled (by decide) rfl⟩

/-- C8: per-file I/O failures are recorded and non-fatal: a failed copy
of a new file appends an error entry and continues; an unreadable
directory appends the walk error and continues; a non-aborting entry
hands the walk on to the remaining entries; and `CopyProfile`'s returned
error is never anything but nil or `errCancelled`. -/
theorem file_errors_are_nonfatal :
    (∀ (cfg : WalkCfg) (env : Env) (rel : List String) (content emsg : String)
        (st : Result × FS),
      rel.headI ∈ profileDirs →
      (cfg.includeDirs = [] ∨ rel.headI ∈ cfg.includeDirs) →
      (cfg.excludeDirs = [] ∨ rel.headI ∉ cfg.excludeDirs) →
      lookupFS st.2 rel = none →
      cfg.dryRun = false →
      env.copyFails rel = some emsg →
      processEntry cfg env rel false content st =
        some ((⟨st.1.copied, st.1.skipped,
          st.1.errors ++ [relStr rel ++ ": " ++ emsg]⟩, st.2), Ctl.cont)) ∧
    (∀ (pdir : String) (cfg : WalkCfg) (env : Env) (pre : List String) (name werr : String)
        (children : List Entry) (st st' : Result × FS),
      processEntry cfg env (pre ++ [name]) true "" st = some (st', Ctl.cont) →
      walkEntry pdir cfg env pre (Entry.dir name (some werr) children) st =
        some ((⟨st'.1.copied, st'.1.skipped,
          st'.1.errors ++ [pathStr pdir (pre ++ [name]) ++ ": " ++ werr]⟩, st'.2), false)) ∧
    (∀ (pdir : String) (cfg : WalkCfg) (env : Env) (pre : List String) (e : Entry)
        (rest : List Entry) (st st' : Result × FS),
      walkEntry pdir cfg env pre e st = some (st', false) →
      walkList pdir cfg env pre (e :: rest) st = walkList pdir cfg env pre rest st') ∧
    (∀ (pdir : String) (tree : List Entry) (fs : FS) (opts : Options) (env : Env)
        (out : CopyOut),
      CopyProfile pdir tree fs opts env = some out →
      out.err = none ∨ out.err = some Err.cancelled) := by
  refine ⟨?_, ?_, ?_, ?_⟩
  · intro cfg env rel content emsg st htop hinc hexc hnew hdry hfail
    have c1 : ¬(rel.headI ∉ profileDirs) := not_not_intro htop
    have c2 : ¬(cfg.includeDirs ≠ [] ∧ rel.headI ∉ cfg.includeDirs) :=
      fun h => h.2 (hinc.resolve_left h.1)
    have c3 : ¬(cfg.excludeDirs ≠ [] ∧ rel.headI ∈ cfg.excludeDirs) :=
      fun h => (hexc.resolve_left h.1) h.2
    simp only [processEntry, copyStep, c1, c2, c3, if_false, hnew, hdry, hfail,
      Option.isNone_none, ite_true, Bool.false_eq_true, ite_false]
  · intro pdir cfg env pre name werr children st st' hpe
    simp [walkEntry, hpe]
  · intro pdir cfg env pre e rest st st' hwe
    simp [walkList, hwe]
  · intro pdir tree fs opts env out h
    unfold CopyProfile at h
    rcases hw : walkList pdir (cfgOf opts) env [] tree (⟨[], [], []⟩, fs) with _ | ⟨⟨res, fs'⟩, cancelled⟩
    · rw [hw] at h; cases h
    · rw [hw] at h
      simp only [Option.some.injEq] at h
      rw [← h]
      cases cancelled with
      | true => right; rfl
      | false => left; rfl

/-- The environment of the C8 witness: every copy attempt fails with
"disk full". -/
def diskFullEnv : Env := ⟨fun _ => some "disk full"⟩

/-- Witness for C8: a failed copy is recorded and the walk goes on; an
unreadable directory is recorded; a completed entry hands over to the
rest; a run with failures still returns a nil error. -/
theorem file_errors_are_nonfatal_witness :
    processEntry ⟨"overwrite", false, none, [], []⟩ diskFullEnv ["agents", "a.md"] false "A"
        (⟨[], [], []⟩, []) =
      some ((⟨[], [], ["agents/a.md: disk full"]⟩, []), Ctl.cont) ∧
    walkEntry "p" ⟨"overwrite", false, none, [], []⟩ diskFullEnv []
        (Entry.dir "agents" (some "permission denied") [Entry.file "a.md" "A"])
        (⟨[], [], []⟩, []) =
      some ((⟨[], [], ["p/agents: permission denied"]⟩, []), false) ∧
    walkList "p" ⟨"overwrite", false, none, [], []⟩ diskFullEnv []
        [Entry.file "x" "X", Entry.file "y" "Y"] (⟨[], [], []⟩, []) =
      walkList "p" ⟨"overwrite", false, none, [], []⟩ diskFullEnv []
        [Entry.file "y" "Y"] (⟨[], [], []⟩, []) ∧
    ((⟨⟨[], [], []⟩, [], none⟩ : CopyOut).err = none ∨
      (⟨⟨[], [], []⟩, [], none⟩ : CopyOut).err = some Err.cancelled) :=
  ⟨(file_errors_are_nonfatal.1 ⟨"overwrite", false, none, [], []⟩ diskFullEnv
      ["agents", "a.md"] "A" "disk full" (⟨[], [], []⟩, []) (by decide) (Or.inl rfl)
      (Or.inl rfl) rfl rfl rfl),
    (file_errors_are_nonfatal.2.1 "p" ⟨"overwrite", false, none, [], []⟩ diskFullEnv []
      "agents" "permission denied" [Entry.file "a.md" "A"] (⟨[], [], []⟩, [])
      (⟨[], [], []⟩, []) (by decide)),
    (file_errors_are_nonfatal.2.2.1 "p" ⟨"overwrite", false, none, [], []⟩ diskFullEnv []
      (Entry.file "x" "X") [Entry.file "y" "Y"] (⟨[], [], []⟩, []) (⟨[], [], []⟩, [])
      (by decide)),
    file_errors_are_nonfatal.2.2.2 "p" [Entry.file "x" "X"] []
      ⟨"overwrite", false, false, none, [], []⟩
      diskFullEnv ⟨⟨[], [], []⟩, [], none⟩ (by decide)⟩

/-- The filter gate of the walk closure for an entry at `rel`: its
top-level component is a recognized content directory and survives the
include/exclude filtering. -/
def qualifies (inc exc : List String) (rel : List String) : Prop :=
  rel.headI ∈ profileDirs ∧ (inc = [] ∨ rel.headI ∈ inc) ∧ (exc = [] ∨ rel.headI ∉ exc)

instance (inc exc rel : List String) : Decidable (qualifies inc exc rel) := by
  unfold qualifies
  infer_instance

mutual

/-- The copy candidates of one entry: the relative paths of the files the
walk will reach and consider for copying under the given filters (pruned
directories and unreadable directories contribute none). -/
def candEntry (inc exc : List String) (pre : List String) : Entry → List (List String)
  | Entry.file name _ =>
    if qualifies inc exc (pre ++ [name]) then [pre ++ [name]] else []
  | Entry.dir name readErr children =>
    if qualifies inc exc (pre ++ [name]) then
      match readErr with
      | some _ => []
      | none => candList inc exc (pre ++ [name]) children
    else []

/-- The copy candidates of a list of sibling entries, in walk order. -/
def candList (inc exc : List String) (pre : List String) : List Entry → List (List String)
  | [] => []
  | e :: rest => candEntry inc exc pre e ++ candList inc exc pre rest

end

theorem processEntry_reject (cfg : WalkCfg) (env : Env) (rel : List String) (isDir : Bool)
    (content : String) (st : Result × FS)
    (hq : ¬qualifies cfg.includeDirs cfg.excludeDirs rel) :
    processEntry cfg env rel isDir content st =
      some (st, if isDir then Ctl.skipDir else Ctl.cont) := by
  unfold processEntry
  by_cases h1 : rel.headI ∈ profileDirs
  · have c1 : ¬(rel.headI ∉ profileDirs) := not_not_intro h1
    by_cases h2 : cfg.includeDirs = [] ∨ rel.headI ∈ cfg.includeDirs
    · have h3 : ¬(cfg.excludeDirs = [] ∨ rel.headI ∉ cfg.excludeDirs) :=
        fun h3 => hq ⟨h1, h2, h3⟩
      have h3' : cfg.excludeDirs ≠ [] ∧ rel.headI ∈ cfg.excludeDirs :=
        ⟨(not_or.mp h3).1, not_not.mp (not_or.mp h3).2⟩
      have c2 : ¬(cfg.includeDirs ≠ [] ∧ rel.headI ∉ cfg.includeDirs) :=
        fun h => h.2 (h2.resolve_left h.1)
      rw [if_neg c1, if_neg c2, if_pos h3']
    · have h2' : cfg.includeDirs ≠ [] ∧ rel.headI ∉ cfg.includeDirs :=
        ⟨(not_or.mp h2).1, (not_or.mp h2).2⟩
      rw [if_neg c1, if_pos h2']
  · rw [if_pos h1]

theorem processEntry_dir_pass (cfg : WalkCfg) (env : Env) (rel : List String)
    (content : String) (st : Result × FS)
    (hq : qualifies cfg.includeDirs cfg.excludeDirs rel) :
    processEntry cfg env rel true content st = some (st, Ctl.cont) := by
  obtain ⟨h1, h2, h3⟩ := hq
  have c1 : ¬(rel.headI ∉ profileDirs) := not_not_intro h1
  have c2 : ¬(cfg.includeDirs ≠ [] ∧ rel.headI ∉ cfg.includeDirs) :=
    fun h => h.2 (h2.resolve_left h.1)
  have c3 : ¬(cfg.excludeDirs ≠ [] ∧ rel.headI ∈ cfg.excludeDirs) :=
    fun h => (h3.resolve_left h.1) h.2
  unfold processEntry
  rw [if_neg c1, if_neg c2, if_neg c3, if_pos rfl]

theorem processEntry_merge_file (cfg : WalkCfg) (env : Env) (rel : List String)
    (content : String) (st : Result × FS)
    (hq : qualifies cfg.includeDirs cfg.excludeDirs rel)
    (hs : cfg.strategy = strategyMerge ∨ cfg.strategy = strategySkip)
    (hex : (lookupFS st.2 rel).isSome) :
    processEntry cfg env rel false content st =
      some ((⟨st.1.copied, st.1.skipped ++ [rel], st.1.errors⟩, st.2), Ctl.cont) := by
  obtain ⟨h1, h2, h3⟩ := hq
  have c1 : ¬(rel.headI ∉ profileDirs) := not_not_intro h1
  have c2 : ¬(cfg.includeDirs ≠ [] ∧ rel.headI ∉ cfg.includeDirs) :=
    fun h => h.2 (h2.resolve_left h.1)
  have c3 : ¬(cfg.excludeDirs ≠ [] ∧ rel.headI ∈ cfg.excludeDirs) :=
    fun h => (h3.resolve_left h.1) h.2
  have h4 : (lookupFS st.2 rel).isNone = false := by
    cases hlk : lookupFS st.2 rel with
    | none => rw [hlk] at hex; simp at hex
    | some c => rfl
  have h5 : cfg.strategy ≠ strategyOverwrite := by
    rcases hs with h | h <;> rw [h] <;> decide
  unfold processEntry
  rw [if_neg c1, if_neg c2, if_neg c3, if_neg (by simp), h4,
    if_neg (by simp), if_neg h5, if_pos hs]

theorem walk_merge_skips (pdir : String) (cfg : WalkCfg) (env : Env)
    (hs : cfg.strategy = strategyMerge ∨ cfg.strategy = strategySkip) :
    (∀ (pre : List String) (e : Entry) (st : Result × FS),
      (∀ rel ∈ candEntry cfg.includeDirs cfg.excludeDirs pre e, (lookupFS st.2 rel).isSome) →
      ∃ errs, walkEntry pdir cfg env pre e st =
        some ((⟨st.1.copied,
          st.1.skipped ++ candEntry cfg.includeDirs cfg.excludeDirs pre e,
          st.1.errors ++ errs⟩, st.2), false)) ∧
    (∀ (pre : List String) (es : List Entry) (st : Result × FS),
      (∀ rel ∈ candList cfg.includeDirs cfg.excludeDirs pre es, (lookupFS st.2 rel).isSome) →
      ∃ errs, walkList pdir cfg env pre es st =
        some ((⟨st.1.copied,
          st.1.skipped ++ candList cfg.includeDirs cfg.excludeDirs pre es,
          st.1.errors ++ errs⟩, st.2), false)) := by
  have main := walkEntry.mutual_induct pdir cfg env
    (fun pre e st =>
      (∀ rel ∈ candEntry cfg.includeDirs cfg.excludeDirs pre e, (lookupFS st.2 rel).isSome) →
      ∃ errs, walkEntry pdir cfg env pre e st =
        some ((⟨st.1.copied,
          st.1.skipped ++ candEntry cfg.includeDirs cfg.excludeDirs pre e,
          st.1.errors ++ errs⟩, st.2), false))
    (fun pre es st =>
      (∀ rel ∈ candList cfg.includeDirs cfg.excludeDirs pre es, (lookupFS st.2 rel).isSome) →
      ∃ errs, walkList pdir cfg env pre es st =
        some ((⟨st.1.copied,
          st.1.skipped ++ candList cfg.includeDirs cfg.excludeDirs pre es,
          st.1.errors ++ errs⟩, st.2), false))
    ?_ ?_ ?_ ?_ ?_ ?_ ?_ ?_ ?_ ?_ ?_
  · exact ⟨main.1, main.2⟩
  · intro pre st a a1 hpe hyp
    by_cases hq : qualifies cfg.includeDirs cfg.excludeDirs (pre ++ [a])
    · have hex : (lookupFS st.2 (pre ++ [a])).isSome := by
        apply hyp
        simp [candEntry, hq]
      rw [processEntry_merge_file cfg env (pre ++ [a]) a1 st hq hs hex] at hpe
      cases hpe
    · rw [processEntry_reject cfg env (pre ++ [a]) false a1 st hq] at hpe
      cases hpe
  · intro pre st a a1 st0 ctl hpe hyp
    by_cases hq : qualifies cfg.includeDirs cfg.excludeDirs (pre ++ [a])
    · have hex : (lookupFS st.2 (pre ++ [a])).isSome := by
        apply hyp
        simp [candEntry, hq]
      refine ⟨[], ?_⟩
      simp only [walkEntry, processEntry_merge_file cfg env (pre ++ [a]) a1 st hq hs hex,
        candEntry, if_pos hq]
      simp
    · refine ⟨[], ?_⟩
      simp only [walkEntry, processEntry_reject cfg env (pre ++ [a]) false a1 st hq,
        candEntry, if_neg hq]
      simp
  · intro pre st a a1 a2 hpe hyp
    by_cases hq : qualifies cfg.includeDirs cfg.excludeDirs (pre ++ [a])
    · rw [processEntry_dir_pass cfg env (pre ++ [a]) "" st hq] at hpe
      cases hpe
    · rw [processEntry_reject cfg env (pre ++ [a]) true "" st hq] at hpe
      cases hpe
  · intro pre st a a1 a2 st0 hpe hyp
    by_cases hq : qualifies cfg.includeDirs cfg.excludeDirs (pre ++ [a])
    · rw [processEntry_dir_pass cfg env (pre ++ [a]) "" st hq] at hpe
      simp at hpe
    · rw [processEntry_reject cfg env (pre ++ [a]) true "" st hq] at hpe
      simp at hpe
  · intro pre st a a1 a2 st0 hpe hne hyp
    by_cases hq : qualifies cfg.includeDirs cfg.excludeDirs (pre ++ [a])
    · rw [processEntry_dir_pass cfg env (pre ++ [a]) "" st hq] at hpe
      simp at hpe
    · rw [processEntry_reject cfg env (pre ++ [a]) true "" st hq] at hpe
      simp only [Option.some.injEq, Prod.mk.injEq, if_pos rfl] at hpe
      refine ⟨[], ?_⟩
      simp only [walkEntry, processEntry_reject cfg env (pre ++ [a]) true "" st hq,
        candEntry, if_neg hq]
      simp
  · intro pre st a a1 st0 ctl hpe hnc hns e hyp
    by_cases hq : qualifies cfg.includeDirs cfg.excludeDirs (pre ++ [a])
    · rw [processEntry_dir_pass cfg env (pre ++ [a]) "" st hq] at hpe
      simp only [Option.some.injEq, Prod.mk.injEq] at hpe
      obtain ⟨hst, hctl⟩ := hpe
      subst hst hctl
      refine ⟨[pathStr pdir (pre ++ [a]) ++ ": " ++ e], ?_⟩
      simp only [walkEntry, processEntry_dir_pass cfg env (pre ++ [a]) "" st hq]
      rw [if_neg hnc, if_neg hns]
      simp only [candEntry, if_pos hq, List.append_nil]
    · rw [processEntry_reject cfg env (pre ++ [a]) true "" st hq] at hpe
      simp only [Option.some.injEq, Prod.mk.injEq] at hpe
      exact absurd hpe.2.symm hns
  · intro pre st a a1 st0 ctl hpe hnc hns ih hyp
    by_cases hq : qualifies cfg.includeDirs cfg.excludeDirs (pre ++ [a])
    · rw [processEntry_dir_pass cfg env (pre ++ [a]) "" st hq] at hpe
      simp only [Option.some.injEq, Prod.mk.injEq] at hpe
      obtain ⟨hst, hctl⟩ := hpe
      subst hst hctl
      have hyp' : ∀ rel ∈ candList cfg.includeDirs cfg.excludeDirs (pre ++ [a]) a1,
          (lookupFS st.2 rel).isSome := by
        intro rel hrel
        apply hyp
        simp [candEntry, if_pos hq, hrel]
      obtain ⟨errs, heq⟩ := ih hyp'
      refine ⟨errs, ?_⟩
      simp only [walkEntry, processEntry_dir_pass cfg env (pre ++ [a]) "" st hq]
      rw [if_neg hnc, if_neg hns]
      rw [heq]
      simp only [candEntry, if_pos hq]
    · rw [processEntry_reject cfg env (pre ++ [a]) true "" st hq] at hpe
      simp only [Option.some.injEq, Prod.mk.injEq] at hpe
      exact absurd hpe.2.symm hns
  · intro pre st hyp
    refine ⟨[], ?_⟩
    simp [walkList, candList]
  · intro pre st e rest hwe ih hyp
    have hyp1 : ∀ rel ∈ candEntry cfg.includeDirs cfg.excludeDirs pre e,
        (lookupFS st.2 rel).isSome := by
      intro rel hrel
      apply hyp
      simp [candList, hrel]
    obtain ⟨errs, heq⟩ := ih hyp1
    rw [hwe] at heq
    cases heq
  · intro pre st e rest st0 hwe ih hyp
    have hyp1 : ∀ rel ∈ candEntry cfg.includeDirs cfg.excludeDirs pre e,
        (lookupFS st.2 rel).isSome := by
      intro rel hrel
      apply hyp
      simp [candList, hrel]
    obtain ⟨errs, heq⟩ := ih hyp1
    rw [hwe] at heq
    simp at heq
  · intro pre st e rest st0 cancelled hwe hnc ihe ihl hyp
    have hc : cancelled = false := by
      cases cancelled
      · rfl
      · exact absurd rfl hnc
    subst hc
    have hyp1 : ∀ rel ∈ candEntry cfg.includeDirs cfg.excludeDirs pre e,
        (lookupFS st.2 rel).isSome := by
      intro rel hrel
      apply hyp
      simp [candList, hrel]
    obtain ⟨errs1, heq1⟩ := ihe hyp1
    rw [hwe] at heq1
    simp only [Option.some.injEq, Prod.mk.injEq] at heq1
    obtain ⟨hst0, -⟩ := heq1
    have hyp2 : ∀ rel ∈ candList cfg.includeDirs cfg.excludeDirs pre rest,
        (lookupFS st0.2 rel).isSome := by
      intro rel hrel
      rw [hst0]
      exact hyp rel (by simp [candList, hrel])
    obtain ⟨errs2, heq2⟩ := ihl hyp2
    refine ⟨errs1 ++ errs2, ?_⟩
    simp only [walkList, hwe, Bool.false_eq_true, reduceIte]
    rw [heq2, hst0]
    simp [candList, List.append_assoc]

/-- C6: under the `merge` strategy, when every candidate file's
destination already exists, `CopyProfile` reports no file copied, all
candidate files skipped, and leaves the target tree and error nil. -/
theorem copyProfile_merge_skips_existing (pdir : String) (tree : List Entry) (fs : FS)
    (opts : Options) (env : Env)
    (hs : opts.strategy = strategyMerge) (hf : opts.force = false)
    (hex : ∀ rel ∈ candList opts.includeDirs opts.excludeDirs [] tree,
      (lookupFS fs rel).isSome) :
    (CopyProfile pdir tree fs opts env).map
        (fun out => (out.result.copied, out.result.skipped, out.fs, out.err)) =
      some ([], candList opts.includeDirs opts.excludeDirs [] tree, fs, none) := by
  have hcfg : (cfgOf opts).strategy = strategyMerge := by
    simp [cfgOf, hf, hs]
  have hw := (walk_merge_skips pdir (cfgOf opts) env (Or.inl hcfg)).2 [] tree
    (⟨[], [], []⟩, fs) (by simpa [cfgOf] using hex)
  obtain ⟨errs, heq⟩ := hw
  unfold CopyProfile
  rw [heq]
  simp [cfgOf]

/-- The options of the C6 witness: plain `merge` strategy. -/
def mergeOpts : Options := ⟨"merge", false, false, none, [], []⟩

/-- The profile tree of the C6 witness. -/
def mergeTree : List Entry := [Entry.dir "agents" none [Entry.file "a.md" "A"]]

/-- Witness for C6: merging into a target that already holds the only
profile file copies nothing and skips it. -/
theorem copyProfile_merge_skips_existing_witness :
    (CopyProfile "p" mergeTree [(["agents", "a.md"], "old")] mergeOpts ⟨fun _ => none⟩).map
        (fun out => (out.result.copied, out.result.skipped, out.fs, out.err)) =
      some ([], candList mergeOpts.includeDirs mergeOpts.excludeDirs [] mergeTree,
        [(["agents", "a.md"], "old")], none) :=
  copyProfile_merge_skips_existing "p" mergeTree [(["agents", "a.md"], "old")] mergeOpts
    ⟨fun _ => none⟩ rfl rfl (by decide)

/-- Witness for C7: the Compare loop answered Compare, Compare, then
Overwrite resolves to Overwrite. -/
theorem resolveConflict_first_terminal_witness :
    resolveConflict (some ([ConflictChoice.compare, ConflictChoice.compare,
        ConflictChoice.overwrite].map (fun a => (a, none)))) =
      some (ConflictChoice.overwrite, none) := by
  have h := resolveConflict_first_terminal.2
    [ConflictChoice.compare, ConflictChoice.compare, ConflictChoice.overwrite]
    ConflictChoice.overwrite (by decide)
  simpa using h

end Copier
